import Mathlib

/-!
Shallow embedding of `src/zenrules_executor.py` (the travel-rule engine:
attribute resolver, condition evaluator, action applier, rule executor and
the minimal policy check).

Modelling conventions:
* Python/JSON values are the inductive type `Val`; dictionaries are
  association lists with string keys (the wire format of rules and payloads
  is JSON, whose object keys are strings).
* Python floats are modelled as exact rationals (`ℚ`).  A Python float
  literal is represented by the exact rational value of the IEEE-754 double
  it denotes; rational arithmetic itself is exact, so binary64 rounding of
  intermediate results is not modelled.
* Code that can raise returns `Except Err _`; a `try/except` block around an
  expression becomes a `match` on that `Except` value.
* Mutation of the working payload copy is modelled by explicit state
  passing: each mutating operation takes the current payload association
  list and returns the updated one.
-/

/-- Python exception classes that the executor's code paths can raise. -/
inductive Err where
  | typeError : Err
  | attributeError : Err
  | valueError : Err
deriving DecidableEq

/-- Values of the Python/JSON data model used by the rule engine. -/
inductive Val where
  | null : Val
  | bool (b : Bool) : Val
  | int (n : Int) : Val
  | float (q : ℚ) : Val
  | str (s : String) : Val
  | list (xs : List Val) : Val
  | dict (kvs : List (String × Val)) : Val

/-- Python `isinstance(v, (int, float))`; note `bool` is a subclass of `int`. -/
def isNumeric : Val → Bool
  | .int _ => true
  | .float _ => true
  | .bool _ => true
  | _ => false

/-- Exact numeric value of an `int`, `float` or `bool`; `0` otherwise. -/
def toQ : Val → ℚ
  | .int n => (n : ℚ)
  | .float q => q
  | .bool b => if b then 1 else 0
  | _ => 0

/-- Python truthiness (`bool(v)`). -/
def pyTruthy : Val → Bool
  | .null => false
  | .bool b => b
  | .int n => decide (n ≠ 0)
  | .float q => decide (q ≠ 0)
  | .str s => decide (s ≠ "")
  | .list xs => !xs.isEmpty
  | .dict kvs => !kvs.isEmpty

/-- Lookup of a string key in a dict (first occurrence), as in `d[k]`/`d.get(k)`. -/
def dget : List (String × Val) → String → Option Val
  | [], _ => Option.none
  | (k, v) :: rest, key => if k = key then some v else dget rest key

/-- Python dict assignment `d[k] = v`: updates the first occurrence in place,
or appends a new entry (insertion-order semantics). -/
def dset : List (String × Val) → String → Val → List (String × Val)
  | [], key, v => [(key, v)]
  | (k, w) :: rest, key, v =>
      if k = key then (k, v) :: rest else (k, w) :: dset rest key v

mutual

/-- Python `==` on values: exact numeric equality across `bool`/`int`/`float`,
structural equality on strings and lists, order-insensitive equality on dicts,
`False` across unrelated types (never raises). -/
def pyEq : Val → Val → Bool
  | .str a, .str b => a == b
  | .list xs, .list ys => pyEqList xs ys
  | .dict a, .dict b => (a.length == b.length) && pyEqSub a b
  | .null, .null => true
  | a, b => isNumeric a && isNumeric b && decide (toQ a = toQ b)

/-- Pointwise Python `==` on lists. -/
def pyEqList : List Val → List Val → Bool
  | [], [] => true
  | x :: xs, y :: ys => pyEq x y && pyEqList xs ys
  | _, _ => false

/-- Every key of the first dict is present in the second with `==` value. -/
def pyEqSub : List (String × Val) → List (String × Val) → Bool
  | [], _ => true
  | (k, v) :: rest, b => pyEqFind k v b && pyEqSub rest b

/-- Key lookup plus `==` comparison of the associated value. -/
def pyEqFind : String → Val → List (String × Val) → Bool
  | _, _, [] => false
  | k, v, (k', w) :: b => if k' = k then pyEq v w else pyEqFind k v b

end

mutual

/-- Python `<` on values: strings lexicographically by code point, lists
lexicographically, numbers by value; anything else raises `TypeError`. -/
def pyLt : Val → Val → Except Err Bool
  | .str a, .str b => .ok (decide (a < b))
  | .list xs, .list ys => pyLtList xs ys
  | a, b =>
      if isNumeric a && isNumeric b then .ok (decide (toQ a < toQ b))
      else .error .typeError

/-- CPython list `<`: skip `==` items, apply `<` at the first difference,
compare lengths if one list is a prefix of the other. -/
def pyLtList : List Val → List Val → Except Err Bool
  | [], [] => .ok false
  | [], _ :: _ => .ok true
  | _ :: _, [] => .ok false
  | x :: xs, y :: ys => if pyEq x y then pyLtList xs ys else pyLt x y

end

mutual

/-- Python `<=` on values (same shape as `pyLt`). -/
def pyLe : Val → Val → Except Err Bool
  | .str a, .str b => .ok (decide (a ≤ b))
  | .list xs, .list ys => pyLeList xs ys
  | a, b =>
      if isNumeric a && isNumeric b then .ok (decide (toQ a ≤ toQ b))
      else .error .typeError

/-- CPython list `<=`: skip `==` items, apply `<=` at the first difference,
compare lengths if one list is a prefix of the other. -/
def pyLeList : List Val → List Val → Except Err Bool
  | [], _ => .ok true
  | _ :: _, [] => .ok false
  | x :: xs, y :: ys => if pyEq x y then pyLeList xs ys else pyLe x y

end

/-- Value of an `Except`, with a default for the error case (models
`try: return e  except Exception: return d`). -/
def exceptD (e : Except Err Bool) (d : Bool) : Bool :=
  match e with
  | .ok b => b
  | .error _ => d

/-- Whether `needle` is a prefix of `hay` (character lists). -/
def chPrefix : List Char → List Char → Bool
  | [], _ => true
  | _ :: _, [] => false
  | a :: as, b :: bs => a == b && chPrefix as bs

/-- Whether `needle` occurs contiguously in `hay` (character lists). -/
def chSub (needle : List Char) : List Char → Bool
  | [] => needle.isEmpty
  | c :: t => chPrefix needle (c :: t) || chSub needle t

/-- Python substring test `sub in s`. -/
def strContains (s sub : String) : Bool :=
  chSub sub.data s.data

/-- Helper for `str.split(".")`: accumulate characters up to each dot. -/
def splitDotAux : List Char → List Char → List String
  | [], acc => [String.mk acc.reverse]
  | c :: rest, acc =>
      if c = '.' then String.mk acc.reverse :: splitDotAux rest []
      else splitDotAux rest (c :: acc)

/-- Python `s.split(".")`: always returns at least one part. -/
def splitDot (s : String) : List String :=
  splitDotAux s.data []

/-- Python membership `x in c`: list membership via `==`, substring test on
strings, key membership on (string-keyed) dicts; `TypeError` on
non-containers and on unhashable dict keys. -/
def pyIn (x : Val) (c : Val) : Except Err Bool :=
  match c with
  | .list ys => .ok (ys.any (fun y => pyEq x y))
  | .str s =>
      match x with
      | .str sub => .ok (strContains s sub)
      | _ => .error .typeError
  | .dict kvs =>
      match x with
      | .str k => .ok ((dget kvs k).isSome)
      | .list _ => .error .typeError
      | .dict _ => .error .typeError
      | _ => .ok false
  | _ => .error .typeError

/-- All characters are ASCII digits. -/
def allDigits (cs : List Char) : Bool :=
  cs.all Char.isDigit

/-- Numeric value of a list of ASCII digits. -/
def digitsToNat (cs : List Char) : Nat :=
  cs.foldl (fun acc c => acc * 10 + (c.toNat - 48)) 0

/-- Split a character list at the first occurrence of `sep`; the second
component records whether the separator occurred. -/
def splitAtChar (sep : Char) : List Char → List Char × Option (List Char)
  | [] => ([], Option.none)
  | c :: rest =>
      if c = sep then ([], some rest)
      else
        let p := splitAtChar sep rest
        (c :: p.1, p.2)

/-- Python `float(s)` on a string: `[sign] (digits [. digits] | . digits)
[e [sign] digits]`, as an exact rational (binary64 rounding of the parsed
literal, surrounding whitespace, underscores and `inf`/`nan` forms are not
modelled).  `Option.none` models `ValueError`. -/
def parsePyFloat (s : String) : Option ℚ :=
  let cs := s.data.map (fun c => if c = 'E' then 'e' else c)
  let sgncs : ℚ × List Char :=
    match cs with
    | '+' :: r => (1, r)
    | '-' :: r => (-1, r)
    | r => (1, r)
  let mantExp := splitAtChar 'e' sgncs.2
  let ipfp := splitAtChar '.' mantExp.1
  let ip := ipfp.1
  let fp := (ipfp.2).getD []
  if allDigits ip && allDigits fp && decide (0 < ip.length + fp.length) then
    let base : ℚ := (digitsToNat ip : ℚ) + (digitsToNat fp : ℚ) / 10 ^ fp.length
    match mantExp.2 with
    | Option.none => some (sgncs.1 * base)
    | some ec =>
        let esgned : Int × List Char :=
          match ec with
          | '+' :: r => (1, r)
          | '-' :: r => (-1, r)
          | r => (1, r)
        if allDigits esgned.2 && decide (0 < esgned.2.length) then
          some (sgncs.1 * base * (10 : ℚ) ^ (esgned.1 * (digitsToNat esgned.2 : Int)))
        else Option.none
  else Option.none

/-- Python `float(v)`: identity on numbers (`bool` → 0/1), string parsing via
`parsePyFloat` (`ValueError` on failure), `TypeError` on other types.  Large
integers are converted exactly (binary64 overflow/rounding not modelled). -/
def pyFloat : Val → Except Err ℚ
  | .int n => .ok (n : ℚ)
  | .float q => .ok q
  | .bool b => .ok (if b then 1 else 0)
  | .str s =>
      match parsePyFloat s with
      | some q => .ok q
      | Option.none => .error .valueError
  | _ => .error .typeError

/-- Relative tolerance of `math.isclose` (the default `rel_tol=1e-9`,
modelled as exactly 10⁻⁹). -/
def relTol : ℚ := 1 / 1000000000

/-- Python `math.isclose(a, b, rel_tol=1e-9)` with the default `abs_tol=0`. -/
def isclose (a b : ℚ) : Bool :=
  decide (|a - b| ≤ relTol * max |a| |b|)

/-- Round half to even to an integer (Python's rounding mode). -/
def roundQ (q : ℚ) : ℤ :=
  let f : ℤ := ⌊q⌋
  let r : ℚ := q - (f : ℚ)
  if r < 1 / 2 then f
  else if 1 / 2 < r then f + 1
  else if f % 2 = 0 then f else f + 1

/-- Python `round(x, 2)` on the exact rational value of `x`. -/
def round2 (q : ℚ) : ℚ :=
  (roundQ (q * 100) : ℚ) / 100

/-- Python `v.get(k)` (default `None`): raises `AttributeError` unless `v`
is a dict. -/
def dictGet (v : Val) (k : String) : Except Err Val :=
  match v with
  | .dict kvs => .ok ((dget kvs k).getD .null)
  | _ => .error .attributeError

/-- Python `v.get(k, d)`: raises `AttributeError` unless `v` is a dict. -/
def dictGetD (v : Val) (k : String) (d : Val) : Except Err Val :=
  match v with
  | .dict kvs => .ok ((dget kvs k).getD d)
  | _ => .error .attributeError

/-- The loop of `_get_attr_val`: descend through dict segments, returning
`None` as soon as a segment is absent or the current value is not a dict. -/
def walk : Val → List String → Val
  | cur, [] => cur
  | cur, p :: rest =>
      match cur with
      | .dict kvs =>
          match dget kvs p with
          | some v => walk v rest
          | Option.none => .null
      | _ => .null

/-- Model of `_get_attr_val(payload, attr)`: falsy attribute → `None`;
attribute without a dot → direct `payload.get` (which raises
`AttributeError` on a non-dict payload); dotted attribute → `walk`.
Non-string truthy attributes reproduce the exceptions Python raises on
`"." not in attr`, `attr.split(".")` and `payload.get(attr)`. -/
def get_attr_val (payload : Val) (attr : Val) : Except Err Val :=
  if pyTruthy attr = false then .ok .null
  else
    match attr with
    | .str s =>
        if strContains s "." = false then
          match payload with
          | .dict kvs => .ok ((dget kvs s).getD .null)
          | _ => .error .attributeError
        else .ok (walk payload (splitDot s))
    | .list xs =>
        if xs.any (fun x => pyEq x (.str ".")) then .error .attributeError
        else
          match payload with
          | .dict _ => .error .typeError
          | _ => .error .attributeError
    | .dict kvs =>
        if (dget kvs ".").isSome then .error .attributeError
        else
          match payload with
          | .dict _ => .error .typeError
          | _ => .error .attributeError
    | _ => .error .typeError

/-- Python `v is None`. -/
def Val.isNull : Val → Bool
  | .null => true
  | _ => false

/-- The six comparison operators on the numeric-coercion path of
`eval_condition`; `==` and `!=` use `math.isclose` with relative
tolerance 1e-9. -/
def numCmp (op : Val) (l v : ℚ) : Option Bool :=
  if pyEq op (.str "==") then some (isclose l v)
  else if pyEq op (.str "!=") then some (!isclose l v)
  else if pyEq op (.str "<") then some (decide (l < v))
  else if pyEq op (.str "<=") then some (decide (l ≤ v))
  else if pyEq op (.str ">") then some (decide (l > v))
  else if pyEq op (.str ">=") then some (decide (l ≥ v))
  else Option.none

/-- The generic-comparison section of `eval_condition`: `==`/`!=` via Python
value equality, ordering operators with `try/except` returning `False` on
unorderable operands; unknown operator → `False` (fail-closed). -/
def genCmp (op left val : Val) : Option Bool :=
  if pyEq op (.str "==") then some (pyEq left val)
  else if pyEq op (.str "!=") then some (!pyEq left val)
  else if pyEq op (.str "<") then some (exceptD (pyLt left val) false)
  else if pyEq op (.str "<=") then some (exceptD (pyLe left val) false)
  else if pyEq op (.str ">") then some (exceptD (pyLt val left) false)
  else if pyEq op (.str ">=") then some (exceptD (pyLe val left) false)
  else Option.none

/-- Operator dispatch of `eval_condition` after the attribute has been
resolved to `left` (this part of the code cannot raise: the membership,
numeric-coercion and ordering comparisons are wrapped in `try/except`). -/
def evalOp (op left val : Val) : Bool :=
  if pyEq op (.str "is_not_null") then (!left.isNull) && !pyEq left (.str "")
  else if pyEq op (.str "is_null") then left.isNull || pyEq left (.str "")
  else if pyEq op (.str "in") then exceptD (pyIn left val) false
  else if pyEq op (.str "not_in") then
    (match pyIn left val with
     | .ok b => !b
     | .error _ => false)
  else if left.isNull then false
  else
    match
      (if isNumeric left || isNumeric val then
        match pyFloat left, pyFloat val with
        | .ok l, .ok v => numCmp op l v
        | _, _ => Option.none
      else Option.none) with
    | some b => b
    | Option.none => (genCmp op left val).getD false

/-- Model of `eval_condition(cond, payload)`: read `attribute`, `operator`,
`value` from the condition (raising `AttributeError` if it is not a dict),
resolve the attribute, then dispatch on the operator. -/
def eval_condition (cond : Val) (payload : Val) : Except Err Bool :=
  match dictGet cond "attribute" with
  | .error e => .error e
  | .ok attr =>
      match dictGet cond "operator" with
      | .error e => .error e
      | .ok op =>
          match dictGet cond "value" with
          | .error e => .error e
          | .ok val =>
              match get_attr_val payload attr with
              | .error e => .error e
              | .ok left => .ok (evalOp op left val)

/-- Short message used when formatting a caught exception into the
`discount_error:{e}` record string (the exact Python message text is
abbreviated to the exception class name). -/
def errMsg : Err → String
  | .typeError => "TypeError"
  | .attributeError => "AttributeError"
  | .valueError => "ValueError"

/-- The `set_field` write loop: descend along the dot-path, forcibly
replacing an absent or non-dict intermediate value with a fresh empty dict,
then assign the value at the last segment. -/
def setPath (d : List (String × Val)) : List String → Val → List (String × Val)
  | [], _ => d
  | [last], v => dset d last v
  | p :: rest, v =>
      let sub : List (String × Val) :=
        match dget d p with
        | some (.dict kvs) => kvs
        | _ => []
      dset d p (.dict (setPath sub rest v))

/-- Model of `apply_action(action, payload)`: returns the applied-action
record and the updated payload.  Every mutation happens only after all
potentially-raising computation of the branch has succeeded, exactly as in
the Python code (where an exception inside a branch prevents the mutation
statements after it). -/
def apply_action (action : Val) (payload : List (String × Val)) :
    Except Err (List (String × Val) × List (String × Val)) :=
  match dictGet action "action" with
  | .error e => .error e
  | .ok name =>
  match dictGetD action "params" (.dict []) with
  | .error e => .error e
  | .ok params =>
  let applied : List (String × Val) := [("action", name), ("params", params)]
  if pyEq name (.str "apply_discount") then
    match dictGet params "value" with
    | .error e => .error e
    | .ok value =>
    match dictGetD params "type" (.str "percent") with
    | .error e => .error e
    | .ok dtype =>
    let price := (dget payload "price").getD .null
    if price.isNull then
      .ok (dset applied "error" (.str "no_price_field"), payload)
    else
      match pyFloat price with
      | .error e =>
          .ok (dset applied "error" (.str ("discount_error:" ++ errMsg e)), payload)
      | .ok p =>
      match pyFloat value with
      | .error e =>
          .ok (dset applied "error" (.str ("discount_error:" ++ errMsg e)), payload)
      | .ok v =>
      let newPrice : ℚ :=
        if pyEq dtype (.str "percent") then round2 (p * (1 - v / 100))
        else round2 (if p - v < 0 then 0 else p - v)
      .ok (dset applied "resulting_price" (.float newPrice),
           dset payload "price_after_discount" (.float newPrice))
  else if pyEq name (.str "mark_out_of_policy") then
    match dget payload "policy_flags" with
    | Option.none =>
        .ok (applied,
             dset payload "policy_flags" (.dict [("out_of_policy_rule", .bool true)]))
    | some (.dict kvs) =>
        .ok (applied,
             dset payload "policy_flags" (.dict (dset kvs "out_of_policy_rule" (.bool true))))
    | some _ => .error .typeError
  else if pyEq name (.str "set_field") then
    match dictGet params "field" with
    | .error e => .error e
    | .ok field =>
    match dictGet params "value" with
    | .error e => .error e
    | .ok value =>
    if pyTruthy field then
      match field with
      | .str s =>
          .ok (dset (dset applied "set_field" field) "set_value" value,
               setPath payload (splitDot s) value)
      | _ => .error .attributeError
    else .ok (dset applied "error" (.str "no_field"), payload)
  else .ok (dset applied "warning" (.str "unknown_action"), payload)

/-- Python iteration `for x in v`: lists yield elements, strings yield
one-character strings, dicts yield their keys; anything else raises
`TypeError`. -/
def iterate : Val → Except Err (List Val)
  | .list xs => .ok xs
  | .str s => .ok (s.data.map (fun c => .str (String.mk [c])))
  | .dict kvs => .ok (kvs.map (fun p => .str p.1))
  | _ => .error .typeError

/-- The condition loop of `execute_rule`: return the first condition that
evaluates false (short-circuiting), or `Option.none` if all hold. -/
def findFirstFail (conds : List Val) (payload : List (String × Val)) :
    Except Err (Option Val) :=
  match conds with
  | [] => .ok Option.none
  | c :: rest =>
      match eval_condition c (.dict payload) with
      | .error e => .error e
      | .ok true => findFirstFail rest payload
      | .ok false => .ok (some c)

/-- The action loop of `execute_rule`: apply each action in order to the
shared payload copy, collecting the applied-action records. -/
def applyAll (acts : List Val) (payload : List (String × Val)) :
    Except Err (List (List (String × Val)) × List (String × Val)) :=
  match acts with
  | [] => .ok ([], payload)
  | a :: rest =>
      match apply_action a payload with
      | .error e => .error e
      | .ok (rec, payload') =>
          match applyAll rest payload' with
          | .error e => .error e
          | .ok (recs, payload'') => .ok (rec :: recs, payload'')

/-- Python `", ".join(xs)`: every element must be a string, else `TypeError`. -/
def joinStrs : List Val → Except Err String
  | [] => .ok ""
  | x :: rest =>
      match x with
      | .str s =>
          match rest with
          | [] => .ok s
          | _ :: _ =>
              match joinStrs rest with
              | .ok t => .ok (s ++ ", " ++ t)
              | .error e => .error e
      | _ => .error .typeError

/-- The explanation line of the matched branch: list the applied action
names (`a.get("action", "")`), joining them with `", "` (which raises
`TypeError` if some name is not a string). -/
def mkExplanation (records : List (List (String × Val))) : Except Err String :=
  let names := records.map (fun r => (dget r "action").getD (.str ""))
  if names.isEmpty then .ok "Conditions matched. No actions applied."
  else
    match joinStrs names with
    | .error e => .error e
    | .ok s => .ok ("Conditions matched. Actions applied: " ++ s ++ ".")

/-- The result dict of the `invalid_rule` early return (initial `res` with
`reason` set; note the early return skips the policy-flag augmentation, so
there are no `in_policy`/`policy_status` keys). -/
def invalidRes (pc : List (String × Val)) : List (String × Val) :=
  [("matched", .bool false), ("reason", .str "invalid_rule"),
   ("failed_condition", .null), ("actions_applied", .list []),
   ("resulting_payload", .dict pc), ("explanation", .str "")]

/-- The result dict of the conditions-failed branch (before augmentation). -/
def failRes (pc : List (String × Val)) (c : Val) : List (String × Val) :=
  [("matched", .bool false), ("reason", .str "conditions_not_met"),
   ("failed_condition", c), ("actions_applied", .list []),
   ("resulting_payload", .dict pc),
   ("explanation", .str "One or more rule conditions were not satisfied.")]

/-- The result dict of the matched branch (before augmentation). -/
def successRes (pc : List (String × Val)) (records : List (List (String × Val)))
    (expl : String) : List (String × Val) :=
  [("matched", .bool true), ("reason", .str "actions_executed"),
   ("failed_condition", .null), ("actions_applied", .list (records.map .dict)),
   ("resulting_payload", .dict pc), ("explanation", .str expl)]

/-- Whether some applied-action record in the result is a dict whose
`action` is `"mark_out_of_policy"` (the strict policy-flag test). -/
def outOfPolicyFlag (res : List (String × Val)) : Bool :=
  let acts : List Val :=
    match dget res "actions_applied" with
    | some (.list l) => l
    | _ => []
  acts.any (fun a =>
    match a with
    | .dict kvs => pyEq ((dget kvs "action").getD .null) (.str "mark_out_of_policy")
    | _ => false)

/-- The strict policy-flag augmentation at the end of `execute_rule`:
`in_policy = not (any applied action is mark_out_of_policy)` and the derived
`policy_status`. -/
def augment (res : List (String × Val)) : List (String × Val) :=
  let out := outOfPolicyFlag res
  dset (dset res "in_policy" (.bool !out)) "policy_status"
    (.str (if out then "out_of_policy" else "in_policy"))

/-- The working payload copy: `deepcopy(payload) if isinstance(payload, dict)
else {}`. -/
def payloadKvs : Val → List (String × Val)
  | .dict kvs => kvs
  | _ => []

/-- Body of `execute_rule` for a valid (truthy dict) rule. -/
def execValid (kvs : List (String × Val)) (pc : List (String × Val)) :
    Except Err (List (String × Val)) :=
  let conditions := (dget kvs "conditions").getD (.list [])
  let actions := (dget kvs "actions").getD (.list [])
  match iterate conditions with
  | .error e => .error e
  | .ok conds =>
      match findFirstFail conds pc with
      | .error e => .error e
      | .ok (some c) => .ok (augment (failRes pc c))
      | .ok Option.none =>
          match iterate actions with
          | .error e => .error e
          | .ok acts =>
              match applyAll acts pc with
              | .error e => .error e
              | .ok (records, pc') =>
                  match mkExplanation records with
                  | .error e => .error e
                  | .ok expl => .ok (augment (successRes pc' records expl))

/-- Model of `execute_rule(rule, payload)`: deep-copy the inputs (the working
copy is `payloadKvs payload`), reject a falsy or non-dict rule with
`invalid_rule` (skipping the augmentation), otherwise evaluate the
conditions as a short-circuit conjunction and on success apply the actions
in order, then augment with the strict policy flags. -/
def execute_rule (rule : Val) (payload : Val) : Except Err (List (String × Val)) :=
  let pc := payloadKvs payload
  match rule with
  | .dict (kv :: kvs) => execValid (kv :: kvs) pc
  | _ => .ok (invalidRes pc)

/-- Caller-visible state after a call to `execute_rule`.  Lines 176-177 of
the source deep-copy both inputs before any mutation, and every mutation in
the body targets the copies (`payload_copy`, `res`), so with explicit state
passing the caller's objects come back exactly as they were passed. -/
structure CallOutcome where
  result : Except Err (List (String × Val))
  caller_rule : Val
  caller_payload : Val

/-- Model of a full call to `execute_rule`, tracking the caller's two
argument objects alongside the returned result. -/
def execute_rule_call (rule : Val) (payload : Val) : CallOutcome :=
  { result := execute_rule rule payload
    caller_rule := rule
    caller_payload := payload }

/-- The condition loop of `execute_policy`: `in_policy=true` at the first
false condition, `in_policy=false` if all conditions hold. -/
def policyLoop (conds : List Val) (payload : Val) : Except Err Bool :=
  match conds with
  | [] => .ok false
  | c :: rest =>
      match eval_condition c payload with
      | .error e => .error e
      | .ok true => policyLoop rest payload
      | .ok false => .ok true

/-- Model of `execute_policy(policy_rule, payload)`: returns the `in_policy`
boolean.  A non-dict rule or falsy `conditions` is vacuously in policy;
otherwise the payload is out of policy exactly when every condition holds
(inverted trigger semantics).  The payload is passed to `eval_condition`
unchanged (not copied, not coerced to a dict). -/
def execute_policy (policy_rule : Val) (payload : Val) : Except Err Bool :=
  match policy_rule with
  | .dict kvs =>
      let conditions := (dget kvs "conditions").getD (.list [])
      if pyTruthy conditions = false then .ok true
      else
        match iterate conditions with
        | .error e => .error e
        | .ok conds => policyLoop conds payload
  | _ => .ok true

theorem dget_dset (d : List (String × Val)) (k k' : String) (v : Val) :
    dget (dset d k v) k' = if k = k' then some v else dget d k' := by
  induction d with
  | nil => by_cases h : k = k' <;> simp [dget, dset, h]
  | cons kv rest ih =>
      obtain ⟨k₀, w⟩ := kv
      by_cases h0 : k₀ = k
      · subst h0
        by_cases h : k₀ = k' <;> simp [dget, dset, h]
      · by_cases h : k₀ = k'
        · subst h
          have hkk : ¬k = k₀ := fun hh => h0 hh.symm
          simp [dget, dset, h0, hkk]
        · simp [dget, dset, h0, h, ih]

theorem pyEq_str_right (v : Val) (s : String) : pyEq v (.str s) = true ↔ v = .str s := by
  cases v <;> simp [pyEq, isNumeric]

theorem evalOp_null_false (op val : Val) (h1 : op ≠ .str "is_null")
    (h2 : op ≠ .str "in") (h3 : op ≠ .str "not_in") :
    evalOp op .null val = false := by
  rw [evalOp]
  by_cases e1 : pyEq op (.str "is_not_null") = true
  · simp [e1, Val.isNull]
  · rw [Bool.not_eq_true] at e1
    by_cases e2 : pyEq op (.str "is_null") = true
    · exact absurd ((pyEq_str_right _ _).mp e2) h1
    · rw [Bool.not_eq_true] at e2
      by_cases e3 : pyEq op (.str "in") = true
      · exact absurd ((pyEq_str_right _ _).mp e3) h2
      · rw [Bool.not_eq_true] at e3
        by_cases e4 : pyEq op (.str "not_in") = true
        · exact absurd ((pyEq_str_right _ _).mp e4) h3
        · rw [Bool.not_eq_true] at e4
          simp [e1, e2, e3, e4, Val.isNull]

theorem eval_condition_dict (kvs : List (String × Val)) (payload left : Val)
    (hleft : get_attr_val payload ((dget kvs "attribute").getD .null) = .ok left) :
    eval_condition (.dict kvs) payload
      = .ok (evalOp ((dget kvs "operator").getD .null) left
              ((dget kvs "value").getD .null)) := by
  simp [eval_condition, dictGet, hleft]

/-- C1 (amended): if the attribute path of a condition resolves to null,
every operator other than `is_null`, `in` and `not_in` makes the condition
false; `in` returns the membership test of null in the condition's value
(false when the test raises) and `not_in` its negation (false when the test
raises). -/
theorem claim_C1 (kvs : List (String × Val)) (payload : Val)
    (hnull : get_attr_val payload ((dget kvs "attribute").getD .null) = .ok .null) :
    (∀ op, (dget kvs "operator").getD .null = op →
      op ≠ .str "is_null" → op ≠ .str "in" → op ≠ .str "not_in" →
      eval_condition (.dict kvs) payload = .ok false) ∧
    ((dget kvs "operator").getD .null = .str "in" →
      eval_condition (.dict kvs) payload
        = .ok (exceptD (pyIn .null ((dget kvs "value").getD .null)) false)) ∧
    ((dget kvs "operator").getD .null = .str "not_in" →
      eval_condition (.dict kvs) payload
        = .ok (match pyIn .null ((dget kvs "value").getD .null) with
               | .ok b => !b
               | .error _ => false)) := by
  refine ⟨?_, ?_, ?_⟩
  · intro op hop h1 h2 h3
    rw [eval_condition_dict kvs payload .null hnull, hop,
      evalOp_null_false op _ h1 h2 h3]
  · intro hop
    rw [eval_condition_dict kvs payload .null hnull, hop]
    simp [evalOp, pyEq]
  · intro hop
    rw [eval_condition_dict kvs payload .null hnull, hop]
    simp [evalOp, pyEq]

/-- C1 counterexample: the attribute `"missing"` is absent from the empty
payload (it resolves to null), the operator `not_in` is not `is_null`, and
yet the condition evaluates to true, not false. -/
theorem claim_C1_counterexample :
    get_attr_val (.dict []) (.str "missing") = .ok .null ∧
    eval_condition
      (.dict [("attribute", .str "missing"), ("operator", .str "not_in"),
              ("value", .list [.str "a"])])
      (.dict []) = .ok true := by
  constructor
  · rfl
  · simp [eval_condition, dictGet, dget, get_attr_val, pyTruthy, strContains,
      chSub, chPrefix, evalOp, pyEq, pyIn, exceptD, isNumeric]

/-- C1 witness: the amended theorem applied at a concrete input — operator
`==` on an absent attribute evaluates to false. -/
theorem claim_C1_witness :
    eval_condition
      (.dict [("attribute", .str "missing"), ("operator", .str "=="),
              ("value", .str "a")])
      (.dict []) = .ok false := by
  refine (claim_C1 [("attribute", .str "missing"), ("operator", .str "=="),
      ("value", .str "a")] (.dict []) ?_).1 (.str "==") rfl (by simp) (by simp) (by simp)
  rfl

/-- C8: when at least one side is numeric and both sides coerce to floats,
the six comparison operators compare the two float values, with `==` being
`math.isclose` at relative tolerance 1e-9 and `!=` its negation. -/
theorem claim_C8 (kvs : List (String × Val)) (payload left vv : Val) (l v : ℚ)
    (hval : (dget kvs "value").getD .null = vv)
    (hleft : get_attr_val payload ((dget kvs "attribute").getD .null) = .ok left)
    (hnn : left.isNull = false)
    (hnum : (isNumeric left || isNumeric vv) = true)
    (hl : pyFloat left = .ok l) (hv : pyFloat vv = .ok v) :
    ((dget kvs "operator").getD .null = .str "==" →
      (eval_condition (.dict kvs) payload = .ok true ↔
        |l - v| ≤ relTol * max |l| |v|)) ∧
    ((dget kvs "operator").getD .null = .str "!=" →
      (eval_condition (.dict kvs) payload = .ok true ↔
        ¬ (|l - v| ≤ relTol * max |l| |v|))) ∧
    ((dget kvs "operator").getD .null = .str "<" →
      (eval_condition (.dict kvs) payload = .ok true ↔ l < v)) ∧
    ((dget kvs "operator").getD .null = .str "<=" →
      (eval_condition (.dict kvs) payload = .ok true ↔ l ≤ v)) ∧
    ((dget kvs "operator").getD .null = .str ">" →
      (eval_condition (.dict kvs) payload = .ok true ↔ v < l)) ∧
    ((dget kvs "operator").getD .null = .str ">=" →
      (eval_condition (.dict kvs) payload = .ok true ↔ v ≤ l)) := by
  rw [eval_condition_dict kvs payload left hleft, hval]
  refine ⟨?_, ?_, ?_, ?_, ?_, ?_⟩ <;> intro hop <;> rw [hop] <;>
    simp [evalOp, pyEq, hnn, hnum, hl, hv, numCmp, isclose]

/-- C8 witness: the claim's own instance.  The condition value is the exact
rational value of the Python double `0.1 + 0.2` and the payload value that
of the double `0.3`; the `==` comparison evaluates true because the two
floats differ by `2⁻⁵⁴`, far inside the relative tolerance. -/
theorem claim_C8_witness :
    eval_condition
      (.dict [("attribute", .str "x"), ("operator", .str "=="),
              ("value", .float ((1351079888211149 : ℚ)/2^52))])
      (.dict [("x", .float ((5404319552844595 : ℚ)/2^54))]) = .ok true := by
  have h := claim_C8
    [("attribute", .str "x"), ("operator", .str "=="),
     ("value", .float ((1351079888211149 : ℚ)/2^52))]
    (.dict [("x", .float ((5404319552844595 : ℚ)/2^54))])
    (.float ((5404319552844595 : ℚ)/2^54))
    (.float ((1351079888211149 : ℚ)/2^52))
    ((5404319552844595 : ℚ)/2^54) ((1351079888211149 : ℚ)/2^52)
    rfl rfl rfl rfl rfl rfl
  refine (h.1 rfl).mpr ?_
  have e1 : |(5404319552844595 : ℚ)/2^54 - (1351079888211149 : ℚ)/2^52|
      = 1/2^54 := by
    rw [abs_of_nonpos (by norm_num)]
    norm_num
  have e2 : |(5404319552844595 : ℚ)/2^54| = (5404319552844595 : ℚ)/2^54 :=
    abs_of_nonneg (by norm_num)
  have e3 : |(1351079888211149 : ℚ)/2^52| = (1351079888211149 : ℚ)/2^52 :=
    abs_of_nonneg (by norm_num)
  rw [e1, e2, e3, max_eq_right (by norm_num), relTol]
  norm_num

theorem policyLoop_ok_false_iff (cs : List Val) (p : Val) :
    policyLoop cs p = .ok false ↔ ∀ c ∈ cs, eval_condition c p = .ok true := by
  induction cs with
  | nil => simp [policyLoop]
  | cons c rest ih =>
      cases h : eval_condition c p with
      | error e => simp [policyLoop, h]
      | ok b => cases b <;> simp [policyLoop, h, ih]

theorem policyLoop_shortcircuit (pre : List Val) (c : Val) (post : List Val) (p : Val)
    (hpre : ∀ c' ∈ pre, eval_condition c' p = .ok true)
    (hc : eval_condition c p = .ok false) :
    policyLoop (pre ++ c :: post) p = .ok true := by
  induction pre with
  | nil => simp [policyLoop, hc]
  | cons a rest ih =>
      have ha : eval_condition a p = .ok true := hpre a (by simp)
      simp only [List.cons_append, policyLoop, ha]
      exact ih (fun c' hc' => hpre c' (by simp [hc']))

theorem eval_condition_str (s : String) (p : Val) :
    eval_condition (.str s) p = .error .attributeError := by
  simp [eval_condition, dictGet]

theorem str_data_ne (s : String) (h : s ≠ "") : s.data ≠ [] := by
  intro hd
  apply h
  cases s
  simp_all

/-- C4: `execute_policy` returns `in_policy = false` exactly when the rule
is a mapping whose condition list is non-empty and every condition in it
evaluates true; for a non-mapping rule, a falsy `conditions` value, or a
condition list whose first false condition is reached (later conditions
never evaluated), it returns `in_policy = true`. -/
theorem claim_C4 (rule payload : Val) :
    (execute_policy rule payload = .ok false ↔
      ∃ kvs cs, rule = .dict kvs ∧
        (dget kvs "conditions").getD (.list []) = .list cs ∧ cs ≠ [] ∧
        ∀ c ∈ cs, eval_condition c payload = .ok true) ∧
    ((∀ kvs, rule ≠ .dict kvs) → execute_policy rule payload = .ok true) ∧
    (∀ kvs, rule = .dict kvs →
      pyTruthy ((dget kvs "conditions").getD (.list [])) = false →
      execute_policy rule payload = .ok true) ∧
    (∀ kvs pre c post, rule = .dict kvs →
      (dget kvs "conditions").getD (.list []) = .list (pre ++ c :: post) →
      (∀ c' ∈ pre, eval_condition c' payload = .ok true) →
      eval_condition c payload = .ok false →
      execute_policy rule payload = .ok true) := by
  refine ⟨⟨?_, ?_⟩, ?_, ?_, ?_⟩
  · intro h
    cases rule with
    | dict kvs =>
        refine ⟨kvs, ?_⟩
        rw [execute_policy] at h
        by_cases ht : pyTruthy ((dget kvs "conditions").getD (.list [])) = false
        · simp [ht] at h
        · rw [if_neg ht] at h
          cases hc : (dget kvs "conditions").getD (.list []) with
          | list cs =>
              rw [hc] at h ht
              simp [iterate] at h
              have hne : cs ≠ [] := by
                intro hnil
                simp [hnil, pyTruthy] at ht
              exact ⟨cs, rfl, rfl, hne, (policyLoop_ok_false_iff cs payload).mp h⟩
          | str s =>
              rw [hc] at h ht
              simp [iterate] at h
              have hs : s.data ≠ [] := by
                apply str_data_ne
                intro hs0
                simp [hs0, pyTruthy] at ht
              cases hdata : s.data with
              | nil => exact absurd hdata hs
              | cons c0 cr =>
                  rw [hdata] at h
                  simp [policyLoop, eval_condition_str] at h
          | dict kvs2 =>
              rw [hc] at h ht
              simp [iterate] at h
              cases hkvs2 : kvs2 with
              | nil => simp [hkvs2, pyTruthy] at ht
              | cons kv kr =>
                  rw [hkvs2] at h
                  simp [policyLoop, eval_condition_str] at h
          | null => rw [hc] at ht; simp [pyTruthy] at ht
          | bool b =>
              rw [hc] at h
              simp [iterate] at h
          | int n =>
              rw [hc] at h
              simp [iterate] at h
          | float q =>
              rw [hc] at h
              simp [iterate] at h
    | null => simp [execute_policy] at h
    | bool b => simp [execute_policy] at h
    | int n => simp [execute_policy] at h
    | float q => simp [execute_policy] at h
    | str s => simp [execute_policy] at h
    | list xs => simp [execute_policy] at h
  · rintro ⟨kvs, cs, rfl, hc, hne, hall⟩
    have ht : pyTruthy ((dget kvs "conditions").getD (.list [])) = true := by
      rw [hc]
      simpa [pyTruthy] using hne
    rw [execute_policy, if_neg (by simp [ht]), hc]
    simp [iterate]
    exact (policyLoop_ok_false_iff cs payload).mpr hall
  · intro h
    cases rule with
    | dict kvs => exact absurd rfl (h kvs)
    | null => rfl
    | bool b => rfl
    | int n => rfl
    | float q => rfl
    | str s => rfl
    | list xs => rfl
  · rintro kvs rfl ht
    rw [execute_policy, if_pos ht]
  · rintro kvs pre c post rfl hc hpre hfail
    have ht : pyTruthy ((dget kvs "conditions").getD (.list [])) = true := by
      rw [hc]
      simp [pyTruthy]
    rw [execute_policy, if_neg (by simp [ht]), hc]
    simp [iterate]
    exact policyLoop_shortcircuit pre c post payload hpre hfail

/-- C4 witness: the theorem applied at concrete inputs.  A policy rule whose
single condition holds yields out-of-policy (`.ok false`); a rule whose
first condition fails yields in-policy (`.ok true`) even though a malformed
later condition would raise if it were evaluated. -/
theorem claim_C4_witness :
    execute_policy
      (.dict [("conditions", .list [.dict [("attribute", .str "x"),
        ("operator", .str "=="), ("value", .str "a")]])])
      (.dict [("x", .str "a")]) = .ok false ∧
    execute_policy
      (.dict [("conditions", .list [.dict [("attribute", .str "x"),
        ("operator", .str "=="), ("value", .str "b")], .int 5])])
      (.dict [("x", .str "a")]) = .ok true := by
  constructor
  · refine (claim_C4 _ _).1.mpr
      ⟨[("conditions", .list [.dict [("attribute", .str "x"),
        ("operator", .str "=="), ("value", .str "a")]])],
       [.dict [("attribute", .str "x"), ("operator", .str "=="),
        ("value", .str "a")]], rfl, rfl, by simp, ?_⟩
    intro c hc
    simp only [List.mem_singleton] at hc
    subst hc
    simp [eval_condition, dictGet, dget, get_attr_val, pyTruthy, strContains,
      chSub, chPrefix, evalOp, pyEq, isNumeric, genCmp, exceptD, Val.isNull]
  · refine (claim_C4 _ _).2.2.2
      [("conditions", .list [.dict [("attribute", .str "x"),
        ("operator", .str "=="), ("value", .str "b")], .int 5])]
      [] (.dict [("attribute", .str "x"), ("operator", .str "=="),
        ("value", .str "b")]) [.int 5] rfl (by simp [dget]) (by simp) ?_
    simp [eval_condition, dictGet, dget, get_attr_val, pyTruthy, strContains,
      chSub, chPrefix, evalOp, pyEq, isNumeric, genCmp, exceptD]

theorem findFirstFail_shortcircuit (pre : List Val) (c : Val) (post : List Val)
    (pc : List (String × Val))
    (hpre : ∀ c' ∈ pre, eval_condition c' (.dict pc) = .ok true)
    (hc : eval_condition c (.dict pc) = .ok false) :
    findFirstFail (pre ++ c :: post) pc = .ok (some c) := by
  induction pre with
  | nil => simp [findFirstFail, hc]
  | cons a rest ih =>
      have ha := hpre a (by simp)
      simp only [List.cons_append, findFirstFail, ha]
      exact ih (fun c' h => hpre c' (by simp [h]))

/-- C5: when the condition list splits as `pre ++ c :: post` with every
condition of `pre` true and `c` false, `execute_rule` reports exactly `c` as
the failed condition with `matched = false`, reason `conditions_not_met` and
an unmodified payload copy, and the result does not depend on `post` at all
(the conditions after `c` are never evaluated, so arbitrary — even
malformed — later conditions change nothing and raise nothing). -/
theorem claim_C5 (pre : List Val) (c : Val) (post : List Val)
    (others pc : List (String × Val))
    (hpre : ∀ c' ∈ pre, eval_condition c' (.dict pc) = .ok true)
    (hc : eval_condition c (.dict pc) = .ok false) :
    execute_rule (.dict (("conditions", .list (pre ++ c :: post)) :: others))
        (.dict pc) = .ok (augment (failRes pc c)) ∧
    dget (augment (failRes pc c)) "matched" = some (.bool false) ∧
    dget (augment (failRes pc c)) "reason" = some (.str "conditions_not_met") ∧
    dget (augment (failRes pc c)) "failed_condition" = some c ∧
    dget (augment (failRes pc c)) "resulting_payload" = some (.dict pc) ∧
    execute_rule (.dict (("conditions", .list (pre ++ c :: post)) :: others))
        (.dict pc)
      = execute_rule (.dict (("conditions", .list (pre ++ [c])) :: others))
          (.dict pc) := by
  have main : ∀ post',
      execute_rule (.dict (("conditions", .list (pre ++ c :: post')) :: others))
        (.dict pc) = .ok (augment (failRes pc c)) := by
    intro post'
    simp [execute_rule, payloadKvs, execValid, dget, iterate,
      findFirstFail_shortcircuit pre c post' pc hpre hc]
  refine ⟨main post, ?_, ?_, ?_, ?_, (main post).trans (main []).symm⟩ <;>
    simp [augment, outOfPolicyFlag, failRes, dget, dset]

/-- C5 witness: the theorem applied at a concrete rule whose conditions are
a true condition, a false condition, then a malformed condition (a bare
integer): the failed condition is the second one and the malformed third
condition is never evaluated. -/
theorem claim_C5_witness :
    execute_rule
      (.dict [("conditions", .list
        [.dict [("attribute", .str "x"), ("operator", .str "=="), ("value", .str "a")],
         .dict [("attribute", .str "x"), ("operator", .str "=="), ("value", .str "b")],
         .int 5])])
      (.dict [("x", .str "a")])
      = .ok (augment (failRes [("x", .str "a")]
          (.dict [("attribute", .str "x"), ("operator", .str "=="),
                  ("value", .str "b")]))) ∧
    dget (augment (failRes [("x", .str "a")]
        (.dict [("attribute", .str "x"), ("operator", .str "=="),
                ("value", .str "b")]))) "failed_condition"
      = some (.dict [("attribute", .str "x"), ("operator", .str "=="),
                     ("value", .str "b")]) := by
  have h := claim_C5
    [.dict [("attribute", .str "x"), ("operator", .str "=="), ("value", .str "a")]]
    (.dict [("attribute", .str "x"), ("operator", .str "=="), ("value", .str "b")])
    [.int 5] [] [("x", .str "a")] ?_ ?_
  · exact ⟨h.1, h.2.2.2.1⟩
  · intro c' hc'
    simp only [List.mem_singleton] at hc'
    subst hc'
    simp [eval_condition, dictGet, dget, get_attr_val, pyTruthy, strContains,
      chSub, chPrefix, evalOp, pyEq, isNumeric, genCmp, exceptD, Val.isNull]
  · simp [eval_condition, dictGet, dget, get_attr_val, pyTruthy, strContains,
      chSub, chPrefix, evalOp, pyEq, isNumeric, genCmp, exceptD, Val.isNull]

/-- C6: after a call to `execute_rule`, the caller's rule and payload
objects are unchanged — the executor deep-copies both inputs before doing
anything (lines 176-177), every mutation targets the working copy, and the
action results are visible only through the returned `resulting_payload`. -/
theorem claim_C6 (rule payload : Val) :
    (execute_rule_call rule payload).caller_rule = rule ∧
    (execute_rule_call rule payload).caller_payload = payload ∧
    (execute_rule_call rule payload).result = execute_rule rule payload :=
  ⟨rfl, rfl, rfl⟩

theorem execValid_shape (kvs pc : List (String × Val)) (res : List (String × Val))
    (h : execValid kvs pc = .ok res) :
    (∃ c, res = augment (failRes pc c)) ∨
    (∃ pc' recs expl, res = augment (successRes pc' recs expl)) := by
  simp only [execValid] at h
  cases h1 : iterate ((dget kvs "conditions").getD (.list [])) with
  | error e => simp only [h1] at h; exact Except.noConfusion h
  | ok conds =>
      simp only [h1] at h
      cases h2 : findFirstFail conds pc with
      | error e => simp only [h2] at h; exact Except.noConfusion h
      | ok o =>
          simp only [h2] at h
          cases o with
          | some c =>
              simp only [Except.ok.injEq] at h
              exact Or.inl ⟨c, h.symm⟩
          | none =>
              cases h3 : iterate ((dget kvs "actions").getD (.list [])) with
              | error e => simp only [h3] at h; exact Except.noConfusion h
              | ok acts =>
                  simp only [h3] at h
                  cases h4 : applyAll acts pc with
                  | error e => simp only [h4] at h; exact Except.noConfusion h
                  | ok pr =>
                      obtain ⟨recs, pc'⟩ := pr
                      simp only [h4] at h
                      cases h5 : mkExplanation recs with
                      | error e => simp only [h5] at h; exact Except.noConfusion h
                      | ok expl =>
                          simp only [h5, Except.ok.injEq] at h
                          exact Or.inr ⟨pc', recs, expl, h.symm⟩

theorem execValid_reason (kvs pc : List (String × Val)) (res : List (String × Val))
    (h : execValid kvs pc = .ok res) :
    dget res "reason" = some (.str "conditions_not_met") ∨
    dget res "reason" = some (.str "actions_executed") := by
  rcases execValid_shape kvs pc res h with ⟨c, rfl⟩ | ⟨pc', recs, expl, rfl⟩
  · left
    simp [augment, outOfPolicyFlag, failRes, dget, dset]
  · right
    simp [augment, outOfPolicyFlag, successRes, dget, dset]

/-- C3 (amended): `execute_rule` returns `matched = false` with reason
`invalid_rule` if and only if the rule is not a mapping or is the empty
mapping (the guard `not rule or not isinstance(rule, dict)` also rejects the
falsy empty dict); every non-empty mapping proceeds to condition evaluation,
and a non-empty mapping with `conditions: []` (and no actions) trivially
matches with reason `actions_executed`. -/
theorem claim_C3 (rule payload : Val) :
    ((∃ res, execute_rule rule payload = .ok res ∧
        dget res "matched" = some (.bool false) ∧
        dget res "reason" = some (.str "invalid_rule")) ↔
      ((∀ kvs, rule ≠ .dict kvs) ∨ rule = .dict [])) ∧
    (∀ kvs, rule = .dict kvs → kvs ≠ [] →
      (dget kvs "conditions").getD (.list []) = .list [] →
      (dget kvs "actions").getD (.list []) = .list [] →
      ∃ res, execute_rule rule payload = .ok res ∧
        dget res "matched" = some (.bool true) ∧
        dget res "reason" = some (.str "actions_executed")) := by
  constructor
  · constructor
    · rintro ⟨res, hok, hm, hr⟩
      cases rule with
      | dict kvs =>
          cases kvs with
          | nil => exact Or.inr rfl
          | cons kv rest =>
              rw [execute_rule] at hok
              rcases execValid_reason _ _ _ hok with h | h <;> rw [h] at hr <;>
                simp at hr
      | null => exact Or.inl (fun kvs h => Val.noConfusion h)
      | bool b => exact Or.inl (fun kvs h => Val.noConfusion h)
      | int n => exact Or.inl (fun kvs h => Val.noConfusion h)
      | float q => exact Or.inl (fun kvs h => Val.noConfusion h)
      | str s => exact Or.inl (fun kvs h => Val.noConfusion h)
      | list xs => exact Or.inl (fun kvs h => Val.noConfusion h)
    · intro h
      have hres : execute_rule rule payload = .ok (invalidRes (payloadKvs payload)) := by
        rcases h with hnd | rfl
        · cases rule with
          | dict kvs => exact absurd rfl (hnd kvs)
          | null => rfl
          | bool b => rfl
          | int n => rfl
          | float q => rfl
          | str s => rfl
          | list xs => rfl
        · rfl
      exact ⟨invalidRes (payloadKvs payload), hres, by simp [invalidRes, dget],
        by simp [invalidRes, dget]⟩
  · rintro kvs rfl hne hcond hact
    obtain ⟨kv, rest, rfl⟩ : ∃ kv rest, kvs = kv :: rest := by
      cases kvs with
      | nil => exact absurd rfl hne
      | cons kv rest => exact ⟨kv, rest, rfl⟩
    refine ⟨augment (successRes (payloadKvs payload) []
      "Conditions matched. No actions applied."), ?_, ?_, ?_⟩
    · simp [execute_rule, execValid, hcond, hact, iterate, findFirstFail,
        applyAll, mkExplanation]
    · simp [augment, outOfPolicyFlag, successRes, dget, dset]
    · simp [augment, outOfPolicyFlag, successRes, dget, dset]

/-- C3 counterexample: the empty dict is a mapping, yet `execute_rule`
rejects it as `invalid_rule` (the guard `not rule_copy` is true for the
falsy empty dict), contradicting the claim that every mapping proceeds to
condition evaluation. -/
theorem claim_C3_counterexample :
    execute_rule (.dict []) (.dict []) = .ok (invalidRes []) ∧
    dget (invalidRes []) "reason" = some (.str "invalid_rule") ∧
    dget (invalidRes []) "matched" = some (.bool false) := by
  refine ⟨rfl, ?_, ?_⟩ <;> simp [invalidRes, dget]

/-- C3 witness: the amended theorem applied at concrete inputs — a non-empty
mapping with `conditions: []` trivially matches. -/
theorem claim_C3_witness :
    ∃ res, execute_rule (.dict [("conditions", .list [])]) (.dict []) = .ok res ∧
      dget res "matched" = some (.bool true) ∧
      dget res "reason" = some (.str "actions_executed") :=
  (claim_C3 (.dict [("conditions", .list [])]) (.dict [])).2
    [("conditions", .list [])] rfl (by simp) (by simp [dget]) (by simp [dget])

theorem dget_augment (X : List (String × Val)) :
    dget (augment X) "actions_applied" = dget X "actions_applied" ∧
    dget (augment X) "reason" = dget X "reason" ∧
    outOfPolicyFlag (augment X) = outOfPolicyFlag X ∧
    dget (augment X) "in_policy" = some (.bool (!outOfPolicyFlag X)) ∧
    dget (augment X) "policy_status" =
      some (.str (if outOfPolicyFlag X then "out_of_policy" else "in_policy")) := by
  have h1 : dget (augment X) "actions_applied" = dget X "actions_applied" := by
    rw [augment]
    rw [dget_dset, dget_dset]
    simp
  refine ⟨h1, ?_, ?_, ?_, ?_⟩
  · rw [augment, dget_dset, dget_dset]
    simp
  · rw [outOfPolicyFlag, h1]
    rfl
  · rw [augment, dget_dset, dget_dset]
    simp
  · rw [augment, dget_dset]
    simp

/-- C7 (amended): in every result that is not an `invalid_rule` rejection,
`in_policy` is true exactly when no applied-action record has action name
`mark_out_of_policy`, and `policy_status` is derived from it; in particular
a conditions-failed result has an empty `actions_applied` and
`in_policy = true`.  An `invalid_rule` result, however, is returned before
the policy-flag augmentation, so it carries no `in_policy` or
`policy_status` key at all. -/
theorem claim_C7 (rule payload : Val) (res : List (String × Val))
    (h : execute_rule rule payload = .ok res) :
    (((∀ kvs, rule ≠ .dict kvs) ∨ rule = .dict []) →
      dget res "in_policy" = Option.none ∧
      dget res "policy_status" = Option.none ∧
      dget res "reason" = some (.str "invalid_rule")) ∧
    (∀ kv kvs, rule = .dict (kv :: kvs) →
      dget res "in_policy" = some (.bool (!outOfPolicyFlag res)) ∧
      dget res "policy_status" =
        some (.str (if outOfPolicyFlag res then "out_of_policy" else "in_policy"))) ∧
    (dget res "reason" = some (.str "conditions_not_met") →
      dget res "actions_applied" = some (.list []) ∧
      dget res "in_policy" = some (.bool true)) := by
  refine ⟨?_, ?_, ?_⟩
  · intro hinv
    have hres : res = invalidRes (payloadKvs payload) := by
      rcases hinv with hnd | rfl
      · cases rule with
        | dict kvs => exact absurd rfl (hnd kvs)
        | null => simp only [execute_rule, Except.ok.injEq] at h; exact h.symm
        | bool b => simp only [execute_rule, Except.ok.injEq] at h; exact h.symm
        | int n => simp only [execute_rule, Except.ok.injEq] at h; exact h.symm
        | float q => simp only [execute_rule, Except.ok.injEq] at h; exact h.symm
        | str s => simp only [execute_rule, Except.ok.injEq] at h; exact h.symm
        | list xs => simp only [execute_rule, Except.ok.injEq] at h; exact h.symm
      · simp only [execute_rule, Except.ok.injEq] at h
        exact h.symm
    subst hres
    refine ⟨?_, ?_, ?_⟩ <;> simp [invalidRes, dget]
  · rintro kv kvs rfl
    rw [execute_rule] at h
    rcases execValid_shape _ _ _ h with ⟨c, rfl⟩ | ⟨pc', recs, expl, rfl⟩
    · obtain ⟨-, -, hf, hi, hp⟩ := dget_augment (failRes (payloadKvs payload) c)
      rw [hf]
      exact ⟨hi, hp⟩
    · obtain ⟨-, -, hf, hi, hp⟩ := dget_augment (successRes pc' recs expl)
      rw [hf]
      exact ⟨hi, hp⟩
  · intro hr
    cases rule with
    | dict kvs =>
        cases kvs with
        | nil =>
            simp only [execute_rule, Except.ok.injEq] at h
            subst h
            simp [invalidRes, dget] at hr
        | cons kv rest =>
            rw [execute_rule] at h
            rcases execValid_shape _ _ _ h with ⟨c, rfl⟩ | ⟨pc', recs, expl, rfl⟩
            · obtain ⟨ha, -, hf, hi, -⟩ := dget_augment (failRes (payloadKvs payload) c)
              have haf : dget (failRes (payloadKvs payload) c) "actions_applied"
                  = some (.list []) := by simp [failRes, dget]
              have hfl : outOfPolicyFlag (failRes (payloadKvs payload) c) = false := by
                simp [outOfPolicyFlag, failRes, dget]
              rw [ha, haf, hi, hfl]
              exact ⟨rfl, rfl⟩
            · obtain ⟨-, hrr, -, -, -⟩ :=
                dget_augment (successRes pc' recs expl)
              rw [hrr] at hr
              simp [successRes, dget] at hr
    | null =>
        simp only [execute_rule, Except.ok.injEq] at h
        subst h
        simp [invalidRes, dget] at hr
    | bool b =>
        simp only [execute_rule, Except.ok.injEq] at h
        subst h
        simp [invalidRes, dget] at hr
    | int n =>
        simp only [execute_rule, Except.ok.injEq] at h
        subst h
        simp [invalidRes, dget] at hr
    | float q =>
        simp only [execute_rule, Except.ok.injEq] at h
        subst h
        simp [invalidRes, dget] at hr
    | str s =>
        simp only [execute_rule, Except.ok.injEq] at h
        subst h
        simp [invalidRes, dget] at hr
    | list xs =>
        simp only [execute_rule, Except.ok.injEq] at h
        subst h
        simp [invalidRes, dget] at hr

/-- C7 counterexample: an invalid rule produces a result with no
`mark_out_of_policy` record in `actions_applied`, yet its `in_policy` is not
true — the key is absent altogether, because the `invalid_rule` early return
skips the policy-flag augmentation. -/
theorem claim_C7_counterexample :
    execute_rule (.int 1) (.dict []) = .ok (invalidRes []) ∧
    outOfPolicyFlag (invalidRes []) = false ∧
    dget (invalidRes []) "in_policy" = Option.none := by
  refine ⟨rfl, ?_, ?_⟩ <;> simp [invalidRes, outOfPolicyFlag, dget]

/-- C7 witness: the amended theorem applied at a concrete valid rule — the
(trivially matching) empty-conditions rule applies no actions, so
`in_policy = true` and `policy_status = "in_policy"`. -/
theorem claim_C7_witness :
    ∃ res, execute_rule (.dict [("conditions", .list [])]) (.dict []) = .ok res ∧
      dget res "in_policy" = some (.bool true) ∧
      dget res "policy_status" = some (.str "in_policy") := by
  have hok : execute_rule (.dict [("conditions", .list [])]) (.dict [])
      = .ok (augment (successRes [] [] "Conditions matched. No actions applied.")) := by
    simp [execute_rule, execValid, dget, iterate, findFirstFail, applyAll,
      mkExplanation, payloadKvs]
  have h := (claim_C7 _ _ _ hok).2.1 ("conditions", .list []) [] rfl
  have hfl : outOfPolicyFlag (augment (successRes [] []
      "Conditions matched. No actions applied.")) = false := by
    simp [augment, outOfPolicyFlag, successRes, dget, dset]
  refine ⟨_, hok, ?_, ?_⟩
  · rw [h.1, hfl]
    rfl
  · rw [h.2, hfl]
    rfl

theorem roundQ_nonneg (q : ℚ) (h : 0 ≤ q) : 0 ≤ roundQ q := by
  simp only [roundQ]
  have hf : (0 : ℤ) ≤ ⌊q⌋ := Int.floor_nonneg.mpr h
  split_ifs <;> omega

theorem round2_nonneg (q : ℚ) (h : 0 ≤ q) : 0 ≤ round2 q := by
  rw [round2]
  apply div_nonneg _ (by norm_num)
  exact_mod_cast roundQ_nonneg _ (by positivity)

theorem round2_zero : round2 0 = 0 := by
  norm_num [round2, roundQ]

/-- C9: with a numeric price present, `apply_discount` of type `"fixed"`
writes `round(max(0, price - value), 2)` to `price_after_discount` — never
negative, and exactly `0` when the value exceeds the price — while type
`"percent"` (explicit or defaulted) writes `round(price * (1 - value/100), 2)`;
with the price absent the record carries `error = "no_price_field"` and the
payload is returned unmodified. -/
theorem claim_C9 (pc pkvs : List (String × Val)) :
    (∀ pv vv (p v : ℚ),
      dget pc "price" = some pv → pv.isNull = false → pyFloat pv = .ok p →
      (dget pkvs "value").getD .null = vv → pyFloat vv = .ok v →
      (((dget pkvs "type").getD (.str "percent") = .str "fixed" →
        apply_action (.dict [("action", .str "apply_discount"),
            ("params", .dict pkvs)]) pc
          = .ok ([("action", .str "apply_discount"), ("params", .dict pkvs),
                  ("resulting_price", .float (round2 (max 0 (p - v))))],
                 dset pc "price_after_discount"
                   (.float (round2 (max 0 (p - v))))) ∧
        0 ≤ round2 (max 0 (p - v)) ∧
        (p < v → round2 (max 0 (p - v)) = 0)) ∧
       ((dget pkvs "type").getD (.str "percent") = .str "percent" →
        apply_action (.dict [("action", .str "apply_discount"),
            ("params", .dict pkvs)]) pc
          = .ok ([("action", .str "apply_discount"), ("params", .dict pkvs),
                  ("resulting_price", .float (round2 (p * (1 - v / 100))))],
                 dset pc "price_after_discount"
                   (.float (round2 (p * (1 - v / 100)))))))) ∧
    (dget pc "price" = Option.none →
      apply_action (.dict [("action", .str "apply_discount"),
          ("params", .dict pkvs)]) pc
        = .ok ([("action", .str "apply_discount"), ("params", .dict pkvs),
                ("error", .str "no_price_field")], pc)) := by
  constructor
  · intro pv vv p v hpv hnn hp hvv hv
    constructor
    · intro hty
      refine ⟨?_, round2_nonneg _ (le_max_left _ _), ?_⟩
      · simp [apply_action, dictGet, dictGetD, dget, pyEq, hpv, hnn, hp, hvv,
          hv, hty, dset]
        have hmax : (if p < v then (0 : ℚ) else p - v) = 0 ⊔ (p - v) := by
          split_ifs with h
          · exact (max_eq_left (by linarith)).symm
          · exact (max_eq_right (by linarith)).symm
        rw [hmax]
        exact ⟨rfl, rfl⟩
      · intro hlt
        have hm : max 0 (p - v) = 0 := max_eq_left (by linarith)
        rw [hm, round2_zero]
    · intro hty
      simp [apply_action, dictGet, dictGetD, dget, pyEq, hpv, hnn, hp, hvv,
        hv, hty, dset]
  · intro hnone
    simp [apply_action, dictGet, dictGetD, dget, pyEq, hnone, Val.isNull, dset]

/-- C9 witness: the theorem applied at the spec's fixed-discount-floor
instance — a fixed discount of 500 on a price of 200 writes exactly `0.0`
(never a negative price); and with no price in the payload the record
carries `error = "no_price_field"` with the payload unchanged. -/
theorem claim_C9_witness :
    apply_action
      (.dict [("action", .str "apply_discount"),
              ("params", .dict [("value", .int 500), ("type", .str "fixed")])])
      [("price", .float 200)]
      = .ok ([("action", .str "apply_discount"),
              ("params", .dict [("value", .int 500), ("type", .str "fixed")]),
              ("resulting_price", .float 0)],
             [("price", .float 200), ("price_after_discount", .float 0)]) ∧
    apply_action
      (.dict [("action", .str "apply_discount"),
              ("params", .dict [("value", .int 500), ("type", .str "fixed")])])
      []
      = .ok ([("action", .str "apply_discount"),
              ("params", .dict [("value", .int 500), ("type", .str "fixed")]),
              ("error", .str "no_price_field")], []) := by
  have h := claim_C9 [("price", .float 200)]
    [("value", .int 500), ("type", .str "fixed")]
  obtain ⟨heq, -, hzero⟩ :=
    (h.1 (.float 200) (.int 500) 200 ((500 : ℤ) : ℚ) rfl rfl rfl rfl rfl).1 rfl
  have hz : round2 (max 0 ((200 : ℚ) - ((500 : ℤ) : ℚ))) = 0 :=
    hzero (by norm_num)
  rw [hz] at heq
  refine ⟨?_, ?_⟩
  · rw [heq]
    simp [dset]
  · exact (claim_C9 [] [("value", .int 500), ("type", .str "fixed")]).2 rfl

theorem splitDotAux_ne_nil (cs : List Char) : ∀ acc, splitDotAux cs acc ≠ [] := by
  induction cs with
  | nil => intro acc; simp [splitDotAux]
  | cons c rest ih =>
      intro acc
      by_cases h : c = '.'
      · simp [splitDotAux, h]
      · simp only [splitDotAux, if_neg h]
        exact ih (c :: acc)

theorem walk_setPath (parts : List String) (v : Val) :
    ∀ pc, parts ≠ [] → walk (.dict (setPath pc parts v)) parts = v := by
  induction parts with
  | nil => intro pc h; exact absurd rfl h
  | cons p rest ih =>
      intro pc _
      cases rest with
      | nil => simp [setPath, walk, dget_dset]
      | cons q rs =>
          simp only [setPath, walk, dget_dset, if_pos rfl]
          exact ih _ (by simp)

/-- C10: for a `set_field` action with a non-empty string field path,
`apply_action` always succeeds: the write loop forcibly replaces every
intermediate segment whose current value is absent or not a dict by a fresh
dict before descending, so resolving the same dot-path in the updated
payload yields the written value regardless of what the payload previously
held along the path (pre-existing non-dict intermediate values are
destroyed). -/
theorem claim_C10 (pc pkvs : List (String × Val)) (s : String) (v : Val)
    (hs : s ≠ "")
    (hf : (dget pkvs "field").getD .null = .str s)
    (hv : (dget pkvs "value").getD .null = v) :
    apply_action (.dict [("action", .str "set_field"), ("params", .dict pkvs)]) pc
      = .ok ([("action", .str "set_field"), ("params", .dict pkvs),
              ("set_field", .str s), ("set_value", v)],
             setPath pc (splitDot s) v) ∧
    walk (.dict (setPath pc (splitDot s) v)) (splitDot s) = v ∧
    (∀ p rest, splitDot s = p :: rest → rest ≠ [] →
      ∃ kvs', dget (setPath pc (splitDot s) v) p = some (.dict kvs')) := by
  refine ⟨?_, walk_setPath _ _ _ (splitDotAux_ne_nil _ _), ?_⟩
  · simp [apply_action, dictGet, dictGetD, dget, pyEq, hf, hv, pyTruthy, hs, dset]
  · intro p rest hsplit hrest
    rw [hsplit]
    cases rest with
    | nil => exact absurd rfl hrest
    | cons q rs =>
        simp only [setPath, dget_dset, if_pos rfl]
        exact ⟨_, rfl⟩

/-- C10 witness: the theorem applied at a concrete input where the payload
holds a string at the intermediate key `"a"`: writing `7` at `"a.b"`
destroys the string and produces the nested dict `{a: {b: 7}}`. -/
theorem claim_C10_witness :
    apply_action (.dict [("action", .str "set_field"),
        ("params", .dict [("field", .str "a.b"), ("value", .int 7)])])
      [("a", .str "oops")]
      = .ok ([("action", .str "set_field"),
              ("params", .dict [("field", .str "a.b"), ("value", .int 7)]),
              ("set_field", .str "a.b"), ("set_value", .int 7)],
             [("a", .dict [("b", .int 7)])]) :=
  (claim_C10 [("a", .str "oops")] [("field", .str "a.b"), ("value", .int 7)]
    "a.b" (.int 7) (by decide) rfl rfl).1

/-- An attribute (or `set_field` field) value on which `_get_attr_val` and
`field.split` cannot raise: falsy, or a string. -/
def attrOk (a : Val) : Prop :=
  pyTruthy a = false ∨ ∃ s, a = .str s

/-- A condition on which `eval_condition` cannot raise (against a dict
payload): a dict whose attribute is a string or falsy. -/
def condOk (c : Val) : Prop :=
  ∃ kvs, c = .dict kvs ∧ attrOk ((dget kvs "attribute").getD .null)

/-- The payload's `policy_flags` entry, if present, is a dict — the
precondition for `mark_out_of_policy` not to raise. -/
def policyFlagsOk (pc : List (String × Val)) : Prop :=
  dget pc "policy_flags" = Option.none ∨
  ∃ d, dget pc "policy_flags" = some (.dict d)

/-- An action on which `apply_action` cannot raise and whose record keeps a
string action name (so the explanation join cannot raise): a dict with a
string `action` name, a dict `params` (or none), a string-or-falsy `field`,
and a dict `value` whenever the field is exactly `"policy_flags"`. -/
def actionOk (a : Val) : Prop :=
  ∃ kvs pkvs ns,
    a = .dict kvs ∧
    (dget kvs "params").getD (.dict []) = .dict pkvs ∧
    (dget kvs "action").getD .null = .str ns ∧
    attrOk ((dget pkvs "field").getD .null) ∧
    ((dget pkvs "field").getD .null = .str "policy_flags" →
      ∃ d, (dget pkvs "value").getD .null = .dict d)

theorem get_attr_val_dict_total (pc : List (String × Val)) (a : Val)
    (h : attrOk a) : ∃ lv, get_attr_val (.dict pc) a = .ok lv := by
  rcases h with hf | ⟨s, rfl⟩
  · exact ⟨.null, by simp [get_attr_val, hf]⟩
  · by_cases ht : pyTruthy (.str s) = false
    · exact ⟨.null, by simp [get_attr_val, ht]⟩
    · by_cases hc : strContains s "." = false
      · exact ⟨(dget pc s).getD .null, by simp [get_attr_val, ht, hc]⟩
      · exact ⟨walk (.dict pc) (splitDot s), by simp [get_attr_val, ht, hc]⟩

theorem eval_condition_total (c : Val) (pc : List (String × Val))
    (h : condOk c) : ∃ b, eval_condition c (.dict pc) = .ok b := by
  obtain ⟨kvs, rfl, ha⟩ := h
  obtain ⟨lv, hlv⟩ := get_attr_val_dict_total pc _ ha
  exact ⟨_, eval_condition_dict kvs (.dict pc) lv hlv⟩

theorem findFirstFail_total (cs : List Val) (pc : List (String × Val))
    (h : ∀ c ∈ cs, condOk c) : ∃ o, findFirstFail cs pc = .ok o := by
  induction cs with
  | nil => exact ⟨Option.none, rfl⟩
  | cons c rest ih =>
      obtain ⟨b, hb⟩ := eval_condition_total c pc (h c (by simp))
      cases b
      · exact ⟨some c, by simp [findFirstFail, hb]⟩
      · obtain ⟨o, ho⟩ := ih (fun c' hc' => h c' (by simp [hc']))
        exact ⟨o, by simp [findFirstFail, hb, ho]⟩

theorem splitDotAux_singleton (cs : List Char) :
    ∀ acc t, splitDotAux cs acc = [t] → t = String.mk (acc.reverse ++ cs) := by
  induction cs with
  | nil =>
      intro acc t h
      simp only [splitDotAux, List.cons.injEq] at h
      simp [h.1.symm]
  | cons c rest ih =>
      intro acc t h
      by_cases hc : c = '.'
      · rw [splitDotAux, if_pos hc] at h
        injection h with h1 h2
        exact absurd h2 (splitDotAux_ne_nil rest [])
      · rw [splitDotAux, if_neg hc] at h
        have := ih (c :: acc) t h
        simpa using this

theorem splitDot_singleton (s : String) (t : String) (h : splitDot s = [t]) :
    t = s := by
  have := splitDotAux_singleton s.data [] t h
  simp at this
  cases s
  exact this

theorem apply_action_total (a : Val) (pc : List (String × Val))
    (ha : actionOk a) (hp : policyFlagsOk pc) :
    ∃ rec pc', apply_action a pc = .ok (rec, pc') ∧ policyFlagsOk pc' ∧
      ∃ ns, dget rec "action" = some (.str ns) := by
  obtain ⟨kvs, pkvs, ns, rfl, hpar, hact, hfield, hpfval⟩ := ha
  by_cases h1 : ns = "apply_discount"
  · subst h1
    by_cases hpr : ((dget pc "price").getD .null).isNull = true
    · refine ⟨[("action", .str "apply_discount"), ("params", .dict pkvs),
        ("error", .str "no_price_field")], pc, ?_, hp, "apply_discount",
        by simp [dget]⟩
      simp [apply_action, dictGet, dictGetD, hact, hpar, pyEq, hpr, dset]
    · rw [Bool.not_eq_true] at hpr
      cases hfp : pyFloat ((dget pc "price").getD .null) with
      | error e =>
          refine ⟨[("action", .str "apply_discount"), ("params", .dict pkvs),
            ("error", .str ("discount_error:" ++ errMsg e))], pc, ?_, hp,
            "apply_discount", by simp [dget]⟩
          simp [apply_action, dictGet, dictGetD, hact, hpar, pyEq, hpr, hfp,
            dset]
      | ok p =>
          cases hfv : pyFloat ((dget pkvs "value").getD .null) with
          | error e =>
              refine ⟨[("action", .str "apply_discount"),
                ("params", .dict pkvs),
                ("error", .str ("discount_error:" ++ errMsg e))], pc, ?_, hp,
                "apply_discount", by simp [dget]⟩
              simp [apply_action, dictGet, dictGetD, hact, hpar, pyEq, hpr,
                hfp, hfv, dset]
          | ok v =>
              refine ⟨[("action", .str "apply_discount"),
                ("params", .dict pkvs),
                ("resulting_price", .float
                  (if pyEq ((dget pkvs "type").getD (.str "percent"))
                      (.str "percent") then round2 (p * (1 - v / 100))
                   else round2 (if p - v < 0 then 0 else p - v)))],
                dset pc "price_after_discount" (.float
                  (if pyEq ((dget pkvs "type").getD (.str "percent"))
                      (.str "percent") then round2 (p * (1 - v / 100))
                   else round2 (if p - v < 0 then 0 else p - v))),
                ?_, ?_, "apply_discount", by simp [dget]⟩
              · simp [apply_action, dictGet, dictGetD, hact, hpar, pyEq, hpr,
                  hfp, hfv, dset]
              · rcases hp with h0 | ⟨d, h0⟩
                · left
                  rw [dget_dset, if_neg (by simp)]
                  exact h0
                · right
                  exact ⟨d, by rw [dget_dset, if_neg (by simp)]; exact h0⟩
  · have hb1 : (ns == "apply_discount") = false := beq_eq_false_iff_ne.mpr h1
    by_cases h2 : ns = "mark_out_of_policy"
    · subst h2
      rcases hp with h0 | ⟨d, h0⟩
      · refine ⟨[("action", .str "mark_out_of_policy"), ("params", .dict pkvs)],
          dset pc "policy_flags" (.dict [("out_of_policy_rule", .bool true)]),
          ?_, ?_, "mark_out_of_policy", by simp [dget]⟩
        · simp [apply_action, dictGet, dictGetD, hact, hpar, pyEq, h0]
        · right
          exact ⟨_, by rw [dget_dset, if_pos rfl]⟩
      · refine ⟨[("action", .str "mark_out_of_policy"), ("params", .dict pkvs)],
          dset pc "policy_flags"
            (.dict (dset d "out_of_policy_rule" (.bool true))),
          ?_, ?_, "mark_out_of_policy", by simp [dget]⟩
        · simp [apply_action, dictGet, dictGetD, hact, hpar, pyEq, h0]
        · right
          exact ⟨_, by rw [dget_dset, if_pos rfl]⟩
    · have hb2 : (ns == "mark_out_of_policy") = false := beq_eq_false_iff_ne.mpr h2
      by_cases h3 : ns = "set_field"
      · subst h3
        by_cases htr : pyTruthy ((dget pkvs "field").getD .null) = false
        · refine ⟨[("action", .str "set_field"), ("params", .dict pkvs),
            ("error", .str "no_field")], pc, ?_, hp, "set_field",
            by simp [dget]⟩
          simp [apply_action, dictGet, dictGetD, hact, hpar, pyEq, hb1, hb2,
            htr, dset]
        · rcases hfield with hfal | ⟨s, hs⟩
          · exact absurd hfal htr
          · have htt : pyTruthy (.str s) = true := by
              rw [hs] at htr
              revert htr
              cases pyTruthy (.str s) <;> simp
            refine ⟨[("action", .str "set_field"), ("params", .dict pkvs),
              ("set_field", .str s), ("set_value", (dget pkvs "value").getD .null)],
              setPath pc (splitDot s) ((dget pkvs "value").getD .null),
              ?_, ?_, "set_field", by simp [dget]⟩
            · simp [apply_action, dictGet, dictGetD, hact, hpar, pyEq, hb1,
                hb2, hs, htt, dset]
            · cases hsp : splitDot s with
              | nil => exact absurd hsp (splitDotAux_ne_nil s.data [])
              | cons p rest =>
                  cases rest with
                  | nil =>
                      have hps : p = s := splitDot_singleton s p hsp
                      by_cases hpk : p = "policy_flags"
                      · obtain ⟨d, hd⟩ := hpfval (by rw [hs, ← hps, hpk])
                        right
                        refine ⟨d, ?_⟩
                        simp only [setPath]
                        rw [dget_dset, if_pos hpk, hd]
                      · simp only [setPath]
                        rcases hp with h0 | ⟨d, h0⟩
                        · left
                          rw [dget_dset, if_neg hpk]
                          exact h0
                        · right
                          exact ⟨d, by rw [dget_dset, if_neg hpk]; exact h0⟩
                  | cons q rs =>
                      simp only [setPath]
                      by_cases hpk : p = "policy_flags"
                      · right
                        exact ⟨_, by rw [dget_dset, if_pos hpk]⟩
                      · rcases hp with h0 | ⟨d, h0⟩
                        · left
                          rw [dget_dset, if_neg hpk]
                          exact h0
                        · right
                          exact ⟨d, by rw [dget_dset, if_neg hpk]; exact h0⟩
      · have hb3 : (ns == "set_field") = false := beq_eq_false_iff_ne.mpr h3
        refine ⟨[("action", .str ns), ("params", .dict pkvs),
          ("warning", .str "unknown_action")], pc, ?_, hp, ns, by simp [dget]⟩
        simp [apply_action, dictGet, dictGetD, hact, hpar, pyEq, hb1, hb2,
          hb3, dset]

theorem applyAll_total : ∀ (acts : List Val) (pc : List (String × Val)),
    (∀ a ∈ acts, actionOk a) → policyFlagsOk pc →
    ∃ recs pc', applyAll acts pc = .ok (recs, pc') ∧
      ∀ r ∈ recs, ∃ ns, dget r "action" = some (.str ns) := by
  intro acts
  induction acts with
  | nil =>
      intro pc _ _
      exact ⟨[], pc, rfl, by simp⟩
  | cons a rest ih =>
      intro pc h hp
      obtain ⟨rec, pc1, heq, hp1, hns⟩ := apply_action_total a pc (h a (by simp)) hp
      obtain ⟨recs, pc2, heq2, hns2⟩ := ih pc1 (fun a' h' => h a' (by simp [h'])) hp1
      refine ⟨rec :: recs, pc2, by simp [applyAll, heq, heq2], ?_⟩
      intro r hr
      rcases List.mem_cons.mp hr with rfl | hr'
      · exact hns
      · exact hns2 r hr'

theorem joinStrs_total : ∀ (xs : List Val), (∀ x ∈ xs, ∃ s, x = .str s) →
    ∃ t, joinStrs xs = .ok t := by
  intro xs
  induction xs with
  | nil => exact fun _ => ⟨"", rfl⟩
  | cons x rest ih =>
      intro h
      obtain ⟨s, rfl⟩ := h x (by simp)
      cases rest with
      | nil => exact ⟨s, rfl⟩
      | cons y rs =>
          obtain ⟨t, ht⟩ := ih (fun z hz => h z (by simp [hz]))
          exact ⟨s ++ ", " ++ t, by rw [joinStrs, ht]⟩

theorem mkExplanation_total (recs : List (List (String × Val)))
    (h : ∀ r ∈ recs, ∃ ns, dget r "action" = some (.str ns)) :
    ∃ e, mkExplanation recs = .ok e := by
  have hstr : ∀ x ∈ recs.map (fun r => (dget r "action").getD (.str "")),
      ∃ s, x = .str s := by
    intro x hx
    obtain ⟨r, hr, rfl⟩ := List.mem_map.mp hx
    obtain ⟨ns, hns⟩ := h r hr
    exact ⟨ns, by simp [hns]⟩
  by_cases he : (recs.map (fun r => (dget r "action").getD (.str ""))).isEmpty
  · exact ⟨"Conditions matched. No actions applied.", by simp [mkExplanation, he]⟩
  · obtain ⟨t, ht⟩ := joinStrs_total _ hstr
    exact ⟨"Conditions matched. Actions applied: " ++ t ++ ".",
      by simp [mkExplanation, he, ht]⟩

/-- C2 (amended): `execute_rule` returns a result (raises no exception)
whenever the rule's `conditions` and `actions` values are lists, every
condition is a mapping whose attribute is a string or falsy, every action is
a mapping with a string action name, a mapping `params`, a string-or-falsy
`field` and a mapping value when the field is exactly `policy_flags`, and
the payload's `policy_flags` entry (if present) is a mapping; all failures
inside this envelope (unknown operators/actions, missing fields, bad types)
are reported only through the result's `error`, `warning` and `reason`
fields.  Outside the envelope the function can raise, so the claim's "never
raises, even for malformed input" is too strong. -/
theorem claim_C2 (rule payload : Val)
    (hcond : ∀ kvs, rule = .dict kvs →
      ∃ cs, (dget kvs "conditions").getD (.list []) = .list cs ∧
        ∀ c ∈ cs, condOk c)
    (hacts : ∀ kvs, rule = .dict kvs →
      ∃ acts, (dget kvs "actions").getD (.list []) = .list acts ∧
        ∀ a ∈ acts, actionOk a)
    (hp : policyFlagsOk (payloadKvs payload)) :
    ∃ res, execute_rule rule payload = .ok res := by
  cases rule with
  | dict kvs =>
      cases kvs with
      | nil => exact ⟨_, rfl⟩
      | cons kv rest =>
          obtain ⟨cs, hcs, hcso⟩ := hcond _ rfl
          obtain ⟨acts, has, haso⟩ := hacts _ rfl
          obtain ⟨o, ho⟩ := findFirstFail_total cs (payloadKvs payload) hcso
          rw [execute_rule]
          cases o with
          | some c =>
              exact ⟨augment (failRes (payloadKvs payload) c),
                by simp [execValid, hcs, has, iterate, ho]⟩
          | none =>
              obtain ⟨recs, pc', happ, hns⟩ :=
                applyAll_total acts (payloadKvs payload) haso hp
              obtain ⟨e, he⟩ := mkExplanation_total recs hns
              exact ⟨augment (successRes pc' recs e),
                by simp [execValid, hcs, has, iterate, ho, happ, he]⟩
  | null => exact ⟨_, rfl⟩
  | bool b => exact ⟨_, rfl⟩
  | int n => exact ⟨_, rfl⟩
  | float q => exact ⟨_, rfl⟩
  | str s => exact ⟨_, rfl⟩
  | list xs => exact ⟨_, rfl⟩

/-- C2 counterexample: a rule whose conditions list contains a non-dict
condition (the bare integer 5) makes `execute_rule` raise `AttributeError`
(from `cond.get("attribute")`), contradicting the claim that it returns
normally for every malformed input. -/
theorem claim_C2_counterexample :
    execute_rule (.dict [("conditions", .list [.int 5])]) (.dict [])
      = .error .attributeError := rfl

/-- C2 witness: the amended theorem applied at a concrete rule with an
unknown operator and an unknown action — both degrade to data, no
exception. -/
theorem claim_C2_witness :
    ∃ res, execute_rule
      (.dict [("conditions", .list [.dict [("attribute", .str "x"),
        ("operator", .str "bogus"), ("value", .list [])]]),
       ("actions", .list [.dict [("action", .str "teleport_customer")]])])
      (.dict []) = .ok res := by
  refine claim_C2 _ _ ?_ ?_ (Or.inl rfl)
  · rintro kvs h
    injection h with h
    subst h
    refine ⟨[.dict [("attribute", .str "x"), ("operator", .str "bogus"),
      ("value", .list [])]], by simp [dget], ?_⟩
    intro c hc
    simp only [List.mem_singleton] at hc
    subst hc
    exact ⟨_, rfl, Or.inr ⟨"x", rfl⟩⟩
  · rintro kvs h
    injection h with h
    subst h
    refine ⟨[.dict [("action", .str "teleport_customer")]], by simp [dget], ?_⟩
    intro a ha
    simp only [List.mem_singleton] at ha
    subst ha
    refine ⟨[("action", .str "teleport_customer")], [], "teleport_customer",
      rfl, rfl, rfl, Or.inl rfl, ?_⟩
    intro h
    simp [dget] at h
